import Mathlib

/-!
Verification development for the Meet multi-track audio-capture extension.

The definitions below are a shallow embedding of the JavaScript source:

* the frame codec (`resampleFloat32`, `floatTo16BitPCM`) from
  `ParticipantAudioProcessor` in the multi-track capture module (identical
  copies live in the single-stream capture and offscreen modules);
* the per-participant frame accumulation loop (`sliceFrames`,
  `onAudioBlock`, `processBlocks`) from the worklet `port.onmessage`
  handler;
* the track correlation engine (`inspectTrackLabel`, `handleTrackAdded`,
  `fireFallbackTimeout`) from the participant-detector module;
* the processor supervisor (`handleRemoteTrack`) from the multi-track
  capture module;
* the background relay proxy (`wsSend`, `wsOpen`, `handleWsSend`) from the
  background service worker's `handlePortMessage`.

JavaScript numbers are embedded as exact rationals (`ℚ`), JS `Map`s (which
preserve insertion order) as association lists with `Map.get`/`Map.set`/
`Map.delete` semantics, and event emission (`postMessage` / `ws.send`) as
explicit result lists.
-/

namespace MeetCapture

/-! ### Association lists: shallow embedding of insertion-ordered JS `Map` -/

/-- Embeds `Map.get`: first entry with the given key. -/
def lookupA {κ α : Type} [BEq κ] : List (κ × α) → κ → Option α
  | [], _ => none
  | p :: rest, k => if p.1 == k then some p.2 else lookupA rest k

/-- Embeds `Map.set`: update the first entry in place if the key exists, otherwise
append a fresh entry at the end (insertion order preserved). -/
def setA {κ α : Type} [BEq κ] : List (κ × α) → κ → α → List (κ × α)
  | [], k, v => [(k, v)]
  | p :: rest, k, v => if p.1 == k then (k, v) :: rest else p :: setA rest k v

/-- Embeds `Map.delete`. -/
def eraseA {κ α : Type} [BEq κ] (l : List (κ × α)) (k : κ) : List (κ × α) :=
  l.filter (fun p => p.1 != k)

/-- Embeds `Map.has`. -/
def containsKey {κ α : Type} [BEq κ] (l : List (κ × α)) (k : κ) : Bool :=
  (lookupA l k).isSome

/-! ### Frame codec

Embedding of `ParticipantAudioProcessor.resampleFloat32` and
`ParticipantAudioProcessor.floatTo16BitPCM`.  Float64 sample values are
embedded as exact rationals; `Math.round` is round-half-up, which is
Mathlib's `round` on `ℚ`. -/

/-- One iteration body of the `resampleFloat32` inner loop: the average of
`buffer[i]` for `offsetBuffer <= i < nextOffsetBuffer` and `i < buffer.length`
(`accum / count`), or `0` when the window is empty (`count == 0`). -/
def windowAvg (buffer : List ℚ) (lo hi : ℕ) : ℚ :=
  let idxs := List.range' lo (min hi buffer.length - lo)
  if 0 < idxs.length then (idxs.map (fun i => buffer.getD i 0)).sum / (idxs.length : ℚ)
  else 0

/-- The `while (offsetResult < newLength)` loop of `resampleFloat32`:
`remaining` counts the outputs still to produce, `offsetResult` and
`offsetBuffer` are the loop variables. -/
def resampleGo (buffer : List ℚ) (rq : ℚ) :
    ℕ → ℕ → ℕ → List ℚ
  | 0, _, _ => []
  | remaining + 1, offsetResult, offsetBuffer =>
    let nextOffsetBuffer := (round (((offsetResult : ℚ) + 1) * rq)).toNat
    windowAvg buffer offsetBuffer nextOffsetBuffer ::
      resampleGo buffer rq remaining (offsetResult + 1) nextOffsetBuffer

/-- Embeds `resampleFloat32(buffer, sourceRate, targetRate)`: identity when the rates
are equal, otherwise box-filter resampling with
`newLength = Math.round(buffer.length / (sourceRate / targetRate))`. -/
def resampleFloat32 (buffer : List ℚ) (sourceRate targetRate : ℕ) : List ℚ :=
  if sourceRate = targetRate then buffer
  else
    let rq : ℚ := (sourceRate : ℚ) / (targetRate : ℚ)
    let newLength := (round ((buffer.length : ℚ) / rq)).toNat
    resampleGo buffer rq newLength 0 0

/-- Source-window boundary for output index `i`: `Math.round(i * ratio)`.
The loop variable `offsetBuffer` of `resampleGo` always equals `bndOf rq i`
when producing output index `i`. -/
def bndOf (rq : ℚ) (i : ℕ) : ℕ := (round ((i : ℚ) * rq)).toNat

/-- Peak amplitude scan of `floatTo16BitPCM`:
`for (...) { const abs = Math.abs(float32[i]); if (abs > peak) peak = abs; }`. -/
def peakOf (frame : List ℚ) : ℚ := frame.foldl (fun p s => max p |s|) 0

/-- Adaptive gain of `floatTo16BitPCM`:
`if (peak > 0.00001 && peak < 0.3) gain = Math.min(50.0, 0.7 / peak)`. -/
def gainOf (peak : ℚ) : ℚ :=
  if 1 / 100000 < peak ∧ peak < 3 / 10 then min 50 (7 / 10 / peak) else 1

/-- Embeds `if (s > 1) s = 1; else if (s < -1) s = -1;`. -/
def clamp1 (s : ℚ) : ℚ := if s > 1 then 1 else if s < -1 then -1 else s

/-- Storing a float into an `Int16Array` truncates it toward zero (the stored
values here are always in range, so no wrapping occurs). -/
def ratTrunc (q : ℚ) : ℤ := if 0 ≤ q then ⌊q⌋ else -⌊-q⌋

/-- Per-sample conversion of `floatTo16BitPCM`:
`let s = float32[i] * gain; <clamp>; out[i] = s < 0 ? s * 0x8000 : s * 0x7fff;` -/
def pcmSample (gain s : ℚ) : ℤ :=
  let c := clamp1 (s * gain)
  if c < 0 then ratTrunc (c * 32768) else ratTrunc (c * 32767)

/-- Embeds `floatTo16BitPCM(float32)`: peak scan, adaptive gain, clamp-and-scale. -/
def floatTo16BitPCM (frame : List ℚ) : List ℤ :=
  frame.map (pcmSample (gainOf (peakOf frame)))

/-! ### Per-participant frame accumulation

Embedding of the `workletNode.port.onmessage` handler of
`ParticipantAudioProcessor.setupWorklet`: resample the incoming block,
append it to `bufferQueue`, slice off whole frames of `frameSamples`
samples, keep the remainder. -/

/-- The `while (bufferQueue.length - offset >= frameSamples)` loop: returns
the sliced frames (each of length `frameSamples`) and the kept remainder
(`bufferQueue.slice(offset)`). -/
def sliceFrames (frameSamples : ℕ) (buf : List ℚ) : List (List ℚ) × List ℚ :=
  if _h : 0 < frameSamples ∧ frameSamples ≤ buf.length then
    let rest := sliceFrames frameSamples (buf.drop frameSamples)
    (buf.take frameSamples :: rest.1, rest.2)
  else ([], buf)
termination_by buf.length
decreasing_by simp only [List.length_drop]; omega

/-- One invocation of the worklet `onmessage` audio branch: resample the
block, concatenate onto the accumulated `bufferQueue`, slice whole frames.
`acc.1` collects all frames emitted so far (each is sent to `sendPCM` after
quantization), `acc.2` is the current `bufferQueue`. -/
def onAudioBlock (actualRate targetRate frameSamples : ℕ)
    (acc : List (List ℚ) × List ℚ) (block : List ℚ) : List (List ℚ) × List ℚ :=
  let resampled := resampleFloat32 block actualRate targetRate
  let merged := acc.2 ++ resampled
  let sliced := sliceFrames frameSamples merged
  (acc.1 ++ sliced.1, sliced.2)

/-- A whole sequence of worklet callbacks, starting from an empty
`bufferQueue`. -/
def processBlocks (actualRate targetRate frameSamples : ℕ)
    (blocks : List (List ℚ)) : List (List ℚ) × List ℚ :=
  blocks.foldl (onAudioBlock actualRate targetRate frameSamples) ([], [])

/-- Total number of resampled samples produced from a block sequence. -/
def resampledTotal (actualRate targetRate : ℕ) (blocks : List (List ℚ)) : ℕ :=
  (blocks.map (fun block => (resampleFloat32 block actualRate targetRate).length)).sum

/-! ### Track correlation engine

Embedding of the participant-detector module: the `WEBRTC_TRACK_ADDED`
window-message handler, `inspectTrackLabel`, and the pending-track fallback
timeout.  DOM observation supplies the participant registry; it is part of
the state here.  `PendingInfo` keeps the fields the fallback path reads
(the stored `trackLabel`/`streamId` are never read again). -/

/-- A participant-registry record (the DOM `element` reference is dropped;
`isFallback` is absent/undefined for DOM-discovered participants, embedded
as `false`). -/
structure Participant where
  participantId : String
  name : String
  timestamp : ℤ
  isFallback : Bool
deriving DecidableEq

/-- A `pendingTracks` entry: `{ timestamp, trackLabel, streamId, fallbackId }`
restricted to the fields that are read later. -/
structure PendingInfo where
  timestamp : ℤ
  fallbackId : String
deriving DecidableEq

/-- A `TRACK_PARTICIPANT_MAPPED` postMessage (the fields the consumers read;
a message without an `isFallback` field is embedded as `isFallback = false`). -/
structure MappedEvent where
  trackId : String
  participantId : String
  isFallback : Bool
deriving DecidableEq

/-- A `setTimeout` scheduled by the pending-track path: fires after `delayMs`
milliseconds with the captured `trackId` and `fallbackId`. -/
structure FallbackTimer where
  delayMs : ℕ
  trackId : String
  fallbackId : String
deriving DecidableEq

/-- The detector's three registries. -/
structure DetectorState where
  participants : List (String × Participant)
  trackToParticipant : List (String × String)
  pendingTracks : List (String × PendingInfo)
deriving DecidableEq

/-- JS `\w` (ASCII word character). -/
def isWordChar (c : Char) : Bool := c.isAlphanum || c == '_'

/-- Try to match `/<kw>[_-](\w+)/i` at the very start of `s`: the keyword
case-insensitively, then one `_` or `-`, then a maximal nonempty run of word
characters (the capture group). -/
def matchKwAt (kw : List Char) (s : List Char) : Option (List Char) :=
  if (s.take kw.length).map Char.toLower = kw then
    match s.drop kw.length with
    | [] => none
    | c :: rest =>
      if c == '_' || c == '-' then
        match rest.takeWhile isWordChar with
        | [] => none
        | r => some r
      else none
  else none

/-- Leftmost match of `/<kw>[_-](\w+)/i` anywhere in the string. -/
def findKw (kw : List Char) : List Char → Option (List Char)
  | [] => none
  | c :: rest =>
    match matchKwAt kw (c :: rest) with
    | some r => some r
    | none => findKw kw rest

/-- Embeds `inspectTrackLabel(trackLabel)`: `null` for an empty label, otherwise the
patterns `/participant[_-](\w+)/i`, `/user[_-](\w+)/i`, `/peer[_-](\w+)/i`
tried in order, returning the first capture group found. -/
def inspectTrackLabel (label : String) : Option String :=
  if label == "" then none
  else
    match findKw "participant".toList label.toList with
    | some r => some (String.mk r)
    | none =>
      match findKw "user".toList label.toList with
      | some r => some (String.mk r)
      | none =>
        match findKw "peer".toList label.toList with
        | some r => some (String.mk r)
        | none => none

/-- The deterministic fallback id:
``const fallbackId = `participant-${trackId.substring(0, 8)}`;`` -/
def fallbackIdOf (trackId : String) : String :=
  "participant-" ++ String.mk (trackId.toList.take 8)

/-- Embeds `TRACK_ASSIGNMENT_WINDOW_MS`. -/
def trackAssignmentWindowMs : ℕ := 3000

/-- The part of the `WEBRTC_TRACK_ADDED` handler after the label inspection
failed to produce a direct match: timing correlation over the registry in
insertion order, else record the track as pending and schedule the fallback
timeout. -/
def correlateByTiming (st : DetectorState) (trackId : String) (ts : ℤ) :
    DetectorState × List MappedEvent × List FallbackTimer :=
  match st.participants.find?
      (fun pr => decide (|ts - pr.2.timestamp| < (trackAssignmentWindowMs : ℤ))) with
  | some pr =>
    (⟨st.participants, setA st.trackToParticipant trackId pr.1, st.pendingTracks⟩,
     [⟨trackId, pr.1, false⟩], [])
  | none =>
    let fallbackId := fallbackIdOf trackId
    (⟨st.participants, st.trackToParticipant,
      setA st.pendingTracks trackId ⟨ts, fallbackId⟩⟩,
     [], [⟨trackAssignmentWindowMs, trackId, fallbackId⟩])

/-- The `WEBRTC_TRACK_ADDED` handler: direct label match first
(`inspectTrackLabel` hit whose id is a registry key), then timing
correlation, then the pending/fallback path.  Returns the new state, the
`TRACK_PARTICIPANT_MAPPED` events posted, and the timers scheduled. -/
def handleTrackAdded (st : DetectorState) (trackId label : String) (ts : ℤ) :
    DetectorState × List MappedEvent × List FallbackTimer :=
  match inspectTrackLabel label with
  | some possibleId =>
    if containsKey st.participants possibleId then
      (⟨st.participants, setA st.trackToParticipant trackId possibleId, st.pendingTracks⟩,
       [⟨trackId, possibleId, false⟩], [])
    else correlateByTiming st trackId ts
  | none => correlateByTiming st trackId ts

/-- The `setTimeout` body of the pending path, fired with the captured
`trackId` and `fallbackId` after `TRACK_ASSIGNMENT_WINDOW_MS`: if the track
is still pending, map it to the fallback id, drop the pending entry,
synthesize the fallback participant when absent (`now` is `Date.now()` at
fire time), and post a `TRACK_PARTICIPANT_MAPPED` with `isFallback: true`. -/
def fireFallbackTimeout (st : DetectorState) (trackId fallbackId : String)
    (now : ℤ) : DetectorState × List MappedEvent :=
  if (lookupA st.pendingTracks trackId).isSome then
    let t2p := setA st.trackToParticipant trackId fallbackId
    let pend := eraseA st.pendingTracks trackId
    let parts :=
      if containsKey st.participants fallbackId then st.participants
      else st.participants ++
        [(fallbackId,
          ⟨fallbackId, "Participant " ++ toString (st.participants.length + 1), now, true⟩)]
    (⟨parts, t2p, pend⟩, [⟨trackId, fallbackId, true⟩])
  else (st, [])

/-! ### Processor supervisor

Embedding of `handleRemoteTrack` in the multi-track capture module and its
`audioProcessors` registry. -/

/-- The constructor arguments of `ParticipantAudioProcessor` that identify a
processor: its participant and the bound track. -/
structure ProcessorRec where
  participantId : String
  participantName : String
  trackId : String
deriving DecidableEq

/-- Embeds `handleRemoteTrack(participantId, participantName, track)`: if a
processor already exists for the participant, skip (log only); otherwise
register a new processor bound to this track. -/
def handleRemoteTrack (procs : List (String × ProcessorRec))
    (pid pname tid : String) : List (String × ProcessorRec) :=
  if containsKey procs pid then procs
  else setA procs pid ⟨pid, pname, tid⟩

/-! ### Relay proxy

Embedding of the background service worker's multi-participant WebSocket
proxy: `__wsByTabAndParticipant : tabId → participantId → state` with
`state = { ws, url, ready, queue }`.  Transmission (`ws.send`) is modeled by
the `sent` log.  A map entry exists exactly while the connection-state
object exists (`ws.onclose` deletes it). -/

/-- A PCM frame buffer on the wire. -/
abbrev PCMBuf := List ℤ

/-- One participant connection state: `{ ready, queue }` plus the log of
buffers handed to `ws.send` in order. -/
structure WsState where
  ready : Bool
  queue : List PCMBuf
  sent : List PCMBuf
deriving DecidableEq

/-- The `AUDIO_WS_SEND` branch once the state is found:
`if (state.ready) ws.send(buffer); else state.queue.push(buffer.slice(0));` -/
def wsSend (st : WsState) (buf : PCMBuf) : WsState :=
  if st.ready then ⟨st.ready, st.queue, st.sent ++ [buf]⟩
  else ⟨st.ready, st.queue ++ [buf], st.sent⟩

/-- The `ws.onopen` handler: `state.ready = true; for (const buf of
state.queue) ws.send(buf); state.queue = [];` -/
def wsOpen (st : WsState) : WsState :=
  ⟨true, [], st.sent ++ st.queue⟩

/-- The whole `__wsByTabAndParticipant` table. -/
abbrev RelayTable := List (ℕ × List (String × WsState))

/-- Connection-state lookup for a `(tabId, participantId)` pair. -/
def getConn (tbl : RelayTable) (tab : ℕ) (pid : String) : Option WsState :=
  match lookupA tbl tab with
  | none => none
  | some pm => lookupA pm pid

/-- The multi-participant `AUDIO_WS_SEND` branch of `handlePortMessage`:
look up the participant map and the state; when either is missing, warn and
return without touching anything; otherwise feed the buffer to `wsSend`. -/
def handleWsSend (tbl : RelayTable) (tab : ℕ) (pid : String) (buf : PCMBuf) :
    RelayTable :=
  match lookupA tbl tab with
  | none => tbl
  | some pm =>
    match lookupA pm pid with
    | none => tbl
    | some st => setA tbl tab (setA pm pid (wsSend st buf))

/-- Concrete detector state used to exhibit the replayed-event behaviour:
participant `"42"` is registered and track `"T1"` is already mapped to it. -/
def replayState : DetectorState :=
  ⟨[("42", ⟨"42", "Alice", 0, false⟩)], [("T1", "42")], []⟩

/-! ## Theorems -/

/-! ### Association-list lemmas -/

theorem lookupA_setA_self {κ α : Type} [BEq κ] [LawfulBEq κ]
    (l : List (κ × α)) (k : κ) (v : α) : lookupA (setA l k v) k = some v := by
  induction l with
  | nil => simp [setA, lookupA]
  | cons p rest ih =>
    by_cases h : p.1 == k
    · simp [setA, lookupA, h]
    · simp only [setA, h, Bool.false_eq_true, ↓reduceIte, lookupA]
      exact ih

theorem lookupA_eraseA_self {κ α : Type} [BEq κ] [LawfulBEq κ]
    (l : List (κ × α)) (k : κ) : lookupA (eraseA l k) k = none := by
  induction l with
  | nil => simp [eraseA, lookupA]
  | cons p rest ih =>
    by_cases h : p.1 == k
    · simpa [eraseA, List.filter_cons, bne, h] using ih
    · simpa [eraseA, List.filter_cons, bne, h, lookupA] using ih

theorem setA_of_absent {κ α : Type} [BEq κ] (l : List (κ × α)) (k : κ) (v : α)
    (h : lookupA l k = none) : setA l k v = l ++ [(k, v)] := by
  induction l with
  | nil => simp [setA]
  | cons p rest ih =>
    by_cases hp : p.1 == k
    · simp [lookupA, hp] at h
    · simp only [lookupA, hp, Bool.false_eq_true, ↓reduceIte] at h
      simp [setA, hp, ih h]

theorem lookupA_append_absent {κ α : Type} [BEq κ] [LawfulBEq κ]
    (l : List (κ × α)) (k : κ) (v : α) (h : lookupA l k = none) :
    lookupA (l ++ [(k, v)]) k = some v := by
  induction l with
  | nil => simp [lookupA]
  | cons p rest ih =>
    by_cases hp : p.1 == k
    · simp [lookupA, hp] at h
    · simp only [lookupA, hp, Bool.false_eq_true, ↓reduceIte] at h
      simpa [lookupA, hp] using ih h

theorem containsKey_append_self {κ α : Type} [BEq κ] [LawfulBEq κ]
    (l : List (κ × α)) (k : κ) (v : α) :
    containsKey (l ++ [(k, v)]) k = true := by
  induction l with
  | nil => simp [containsKey, lookupA]
  | cons p rest ih =>
    by_cases hp : p.1 == k
    · simp [containsKey, lookupA, hp]
    · simpa [containsKey, lookupA, hp] using ih

theorem filter_key_eq_nil_of_absent {κ α : Type} [BEq κ]
    (l : List (κ × α)) (k : κ) (h : lookupA l k = none) :
    l.filter (fun p => p.1 == k) = [] := by
  induction l with
  | nil => rfl
  | cons p rest ih =>
    by_cases hp : p.1 == k
    · simp [lookupA, hp] at h
    · simp only [lookupA, hp, Bool.false_eq_true, ↓reduceIte] at h
      simp [List.filter, hp, ih h]

/-! ### Resampler lemmas -/

theorem resampleGo_length (buffer : List ℚ) (rq : ℚ) :
    ∀ n k ob, (resampleGo buffer rq n k ob).length = n := by
  intro n
  induction n with
  | zero => intro k ob; rfl
  | succ m ih => intro k ob; simp [resampleGo, ih]

theorem bndOf_zero (rq : ℚ) : bndOf rq 0 = 0 := by
  simp [bndOf]

theorem resampleGo_eq_map (buffer : List ℚ) (rq : ℚ) :
    ∀ n k, resampleGo buffer rq n k (bndOf rq k) =
      (List.range' k n).map (fun i => windowAvg buffer (bndOf rq i) (bndOf rq (i + 1))) := by
  intro n
  induction n with
  | zero => intro k; rfl
  | succ m ih =>
    intro k
    have hb : (round (((k : ℚ) + 1) * rq)).toNat = bndOf rq (k + 1) := by
      simp [bndOf]
    have hr : List.range' k (m + 1) = k :: List.range' (k + 1) m := rfl
    rw [hr, List.map_cons]
    simp only [resampleGo, hb]
    rw [ih (k + 1)]

/-! ### Claim C2 -/

/-- Claim C2: for every input sample array and every valid pair
`(sourceRate, targetRate)`, `resample` returns an output whose length equals
`round(inputLength * targetRate / sourceRate)`; when the rates are equal the
input is returned unchanged; and otherwise each output sample is the average
of the source samples in its window (`windowAvg`, which yields `0` on an
empty window), the windows being delimited by the successive rounded
boundaries `round((i+1) * sourceRate / targetRate)`. -/
theorem resample_length_and_windows (buffer : List ℚ) (s t : ℕ)
    (hs : 0 < s) (ht : 0 < t) :
    (resampleFloat32 buffer s t).length = (round ((buffer.length : ℚ) * t / s)).toNat
    ∧ (s = t → resampleFloat32 buffer s t = buffer)
    ∧ (s ≠ t → resampleFloat32 buffer s t =
        (List.range ((round ((buffer.length : ℚ) * t / s)).toNat)).map
          (fun i => windowAvg buffer (bndOf ((s : ℚ) / t) i) (bndOf ((s : ℚ) / t) (i + 1)))) := by
  have hs0 : (s : ℚ) ≠ 0 := Nat.cast_ne_zero.mpr hs.ne'
  have ht0 : (t : ℚ) ≠ 0 := Nat.cast_ne_zero.mpr ht.ne'
  have hdd : (buffer.length : ℚ) / ((s : ℚ) / (t : ℚ)) = (buffer.length : ℚ) * t / s := by
    rw [div_div_eq_mul_div]
  by_cases hst : s = t
  · subst hst
    have hlen : ((buffer.length : ℚ) * s / s) = (buffer.length : ℚ) := by
      rw [mul_div_assoc, div_self hs0, mul_one]
    refine ⟨?_, fun _ => by simp [resampleFloat32], fun hne => absurd rfl hne⟩
    simp only [resampleFloat32, if_pos rfl, hlen]
    rw [round_natCast]
    simp
  · have hmain : resampleFloat32 buffer s t =
        resampleGo buffer ((s : ℚ) / t)
          ((round ((buffer.length : ℚ) * t / s)).toNat) 0 0 := by
      simp only [resampleFloat32, if_neg hst, hdd]
    refine ⟨?_, fun heq => absurd heq hst, fun _ => ?_⟩
    · rw [hmain, resampleGo_length]
    · rw [hmain, List.range_eq_range']
      have hgo := resampleGo_eq_map buffer ((s : ℚ) / t)
        ((round ((buffer.length : ℚ) * t / s)).toNat) 0
      rw [bndOf_zero] at hgo
      exact hgo

/-- Witness for C2 at a concrete input: a 4-sample buffer downsampled from
48 kHz to 16 kHz. -/
theorem resample_length_and_windows_witness :
    (resampleFloat32 [1, 2, 3, 4] 48000 16000).length
      = (round ((([1, 2, 3, 4] : List ℚ).length : ℚ) * 16000 / 48000)).toNat
    ∧ (48000 = 16000 → resampleFloat32 [1, 2, 3, 4] 48000 16000 = [1, 2, 3, 4]) :=
  ⟨(resample_length_and_windows [1, 2, 3, 4] 48000 16000 (by decide) (by decide)).1,
   (resample_length_and_windows [1, 2, 3, 4] 48000 16000 (by decide) (by decide)).2.1⟩

/-! ### Claim C3 -/

/-- Counterexample to C3 as stated: the claim asserts the adaptive gain
`min(50, 0.7/peak)` applies whenever `0 < peak < 0.3`, but the code's
activation condition is `peak > 0.00001`.  On the frame `[0.000005]` the
peak is `0.000005`, which is strictly between `0` and `0.3`, the claim's
gain would be `min(50, 0.7/0.000005) = 50`, yet the code applies gain `1`:
the produced PCM frame is `[0]`, not the `[8]` the claimed gain yields. -/
theorem adaptive_gain_low_threshold_cex :
    0 < peakOf [1 / 200000] ∧ peakOf [1 / 200000] < 3 / 10
    ∧ min 50 (7 / 10 / peakOf [1 / 200000]) = 50
    ∧ gainOf (peakOf [1 / 200000]) = 1
    ∧ gainOf (peakOf [1 / 200000]) ≠ min 50 (7 / 10 / peakOf [1 / 200000])
    ∧ floatTo16BitPCM [1 / 200000] = [0]
    ∧ List.map (pcmSample (min 50 (7 / 10 / peakOf [1 / 200000]))) [1 / 200000] = [8] := by
  have hpeak : peakOf [1 / 200000] = 1 / 200000 := by
    simp [peakOf]
  have hgain : gainOf (peakOf [1 / 200000]) = 1 := by
    rw [hpeak, gainOf, if_neg]
    norm_num
  have hmin : min 50 (7 / 10 / peakOf [1 / 200000]) = 50 := by
    rw [hpeak]
    norm_num
  refine ⟨by rw [hpeak]; norm_num, by rw [hpeak]; norm_num, hmin, hgain,
    by rw [hgain, hmin]; norm_num, ?_, ?_⟩
  · have h1 : pcmSample 1 (1 / 200000) = 0 := by
      have hc : clamp1 ((1 : ℚ) / 200000 * 1) = 1 / 200000 := by
        rw [clamp1, if_neg (by norm_num), if_neg (by norm_num)]
        norm_num
      simp only [pcmSample, hc]
      rw [if_neg (by norm_num), ratTrunc, if_pos (by norm_num)]
      rw [show ((1 : ℚ) / 200000 * 32767) = 32767 / 200000 by ring]
      rw [Int.floor_eq_iff]
      constructor <;> norm_num
    have hmap : floatTo16BitPCM [1 / 200000]
        = [pcmSample (gainOf (peakOf [1 / 200000])) (1 / 200000)] := rfl
    rw [hmap, hgain, h1]
  · have h2 : pcmSample 50 (1 / 200000) = 8 := by
      have hc : clamp1 ((1 : ℚ) / 200000 * 50) = 1 / 4000 := by
        rw [show ((1 : ℚ) / 200000 * 50) = 1 / 4000 by norm_num, clamp1,
          if_neg (by norm_num), if_neg (by norm_num)]
      simp only [pcmSample, hc]
      rw [if_neg (by norm_num), ratTrunc, if_pos (by norm_num)]
      rw [show ((1 : ℚ) / 4000 * 32767) = 32767 / 4000 by ring]
      rw [Int.floor_eq_iff]
      constructor <;> norm_num
    have hmap : List.map (pcmSample (min 50 (7 / 10 / peakOf [1 / 200000]))) [1 / 200000]
        = [pcmSample (min 50 (7 / 10 / peakOf [1 / 200000])) (1 / 200000)] := rfl
    rw [hmap, hmin, h2]

/-- Claim C3 (amended): `quantize` computes the frame's peak absolute
amplitude and, whenever `0.00001 < peak < 0.3` (the code's activation lower
bound is `0.00001`, not `0`), multiplies every sample by
`gain = min(50, 0.7/peak)` before clamping; otherwise (peak ≤ 0.00001,
including silence, or peak ≥ 0.3) the gain is `1`. -/
theorem adaptive_gain_policy (frame : List ℚ) :
    floatTo16BitPCM frame = frame.map (pcmSample (gainOf (peakOf frame)))
    ∧ (1 / 100000 < peakOf frame ∧ peakOf frame < 3 / 10 →
        gainOf (peakOf frame) = min 50 (7 / 10 / peakOf frame))
    ∧ (¬ (1 / 100000 < peakOf frame ∧ peakOf frame < 3 / 10) →
        gainOf (peakOf frame) = 1) := by
  refine ⟨rfl, fun h => ?_, fun h => ?_⟩
  · rw [gainOf, if_pos h]
  · rw [gainOf, if_neg h]

/-- Witness for the amended C3: a frame with peak `0.01` is boosted
(`min(50, 0.7/0.01) = 50`), a frame with peak `0.5` is not (gain `1`). -/
theorem adaptive_gain_policy_witness :
    gainOf (peakOf [1 / 100]) = min 50 (7 / 10 / peakOf [1 / 100])
    ∧ gainOf (peakOf [1 / 2]) = 1
    ∧ min 50 (7 / 10 / peakOf [1 / 100]) = 50 := by
  have hp1 : peakOf [1 / 100] = 1 / 100 := by simp [peakOf]
  have hp2 : peakOf [1 / 2] = 1 / 2 := by simp [peakOf]
  refine ⟨(adaptive_gain_policy [1 / 100]).2.1 (by rw [hp1]; norm_num),
    (adaptive_gain_policy [1 / 2]).2.2 (by rw [hp2]; norm_num), ?_⟩
  rw [hp1]
  norm_num

/-! ### Claim C9 -/

/-- The clamp keeps every (gain-scaled) sample in `[-1, 1]`. -/
theorem clamp1_bounds (x : ℚ) : -1 ≤ clamp1 x ∧ clamp1 x ≤ 1 := by
  unfold clamp1
  split_ifs with h1 h2
  · exact ⟨by norm_num, le_refl 1⟩
  · exact ⟨le_refl (-1), by norm_num⟩
  · exact ⟨le_of_not_lt h2, le_of_not_lt h1⟩

/-- Every sample conversion lands in the signed 16-bit range, whatever the
gain and the input magnitude. -/
theorem pcmSample_bounds (gain s : ℚ) :
    -32768 ≤ pcmSample gain s ∧ pcmSample gain s ≤ 32767 := by
  unfold pcmSample
  obtain ⟨hlo, hhi⟩ := clamp1_bounds (s * gain)
  set c := clamp1 (s * gain) with hc
  by_cases hneg : c < 0
  · rw [if_pos hneg]
    have hq : c * 32768 < 0 := mul_neg_of_neg_of_pos hneg (by norm_num)
    rw [ratTrunc, if_neg (not_le.mpr hq)]
    have h1 : (0 : ℤ) ≤ ⌊-(c * 32768)⌋ := Int.le_floor.mpr (by push_cast; linarith)
    have h2 : ⌊-(c * 32768)⌋ ≤ 32768 := by
      have : -(c * 32768) ≤ ((32768 : ℤ) : ℚ) := by push_cast; nlinarith
      calc ⌊-(c * 32768)⌋ ≤ ⌊((32768 : ℤ) : ℚ)⌋ := Int.floor_le_floor this
        _ = 32768 := Int.floor_intCast _
    omega
  · rw [if_neg hneg]
    have h0 : (0 : ℚ) ≤ c := le_of_not_lt hneg
    have hq : (0 : ℚ) ≤ c * 32767 := by positivity
    rw [ratTrunc, if_pos hq]
    have h1 : (0 : ℤ) ≤ ⌊c * 32767⌋ := Int.le_floor.mpr (by push_cast; linarith)
    have h2 : ⌊c * 32767⌋ ≤ 32767 := by
      have : c * 32767 ≤ ((32767 : ℤ) : ℚ) := by push_cast; nlinarith
      calc ⌊c * 32767⌋ ≤ ⌊((32767 : ℤ) : ℚ)⌋ := Int.floor_le_floor this
        _ = 32767 := Int.floor_intCast _
    omega

/-- Claim C9: for every input frame — including samples of magnitude greater
than `1` — every 16-bit value produced by `quantize` lies in
`[-32768, 32767]`: the gain-scaled sample is clamped to `[-1, 1]` before
scaling, negatives by `32768` and non-negatives by `32767`. -/
theorem pcm_within_int16_range (frame : List ℚ) (v : ℤ)
    (hv : v ∈ floatTo16BitPCM frame) : -32768 ≤ v ∧ v ≤ 32767 := by
  rw [floatTo16BitPCM] at hv
  obtain ⟨s, _, rfl⟩ := List.mem_map.mp hv
  exact pcmSample_bounds _ s

/-- Witness for C9 at the out-of-range input sample `2`. -/
theorem pcm_within_int16_range_witness :
    -32768 ≤ pcmSample (gainOf (peakOf [2])) 2
    ∧ pcmSample (gainOf (peakOf [2])) 2 ≤ 32767 :=
  pcm_within_int16_range [2] _ (by simp [floatTo16BitPCM])

/-! ### Claim C4 -/

/-- The frame-slicing loop: number of frames, remainder length, and stream
preservation (the frames joined back together, followed by the remainder,
reproduce the buffer). -/
theorem sliceFrames_spec (k : ℕ) (hk : 0 < k) (buf : List ℚ) :
    (sliceFrames k buf).1.length = buf.length / k
    ∧ (sliceFrames k buf).2.length = buf.length % k
    ∧ (sliceFrames k buf).1.flatten ++ (sliceFrames k buf).2 = buf := by
  have main : ∀ n (buf : List ℚ), buf.length ≤ n →
      (sliceFrames k buf).1.length = buf.length / k
      ∧ (sliceFrames k buf).2.length = buf.length % k
      ∧ (sliceFrames k buf).1.flatten ++ (sliceFrames k buf).2 = buf := by
    intro n
    induction n with
    | zero =>
      intro buf hb
      have hnil : buf = [] := List.eq_nil_of_length_eq_zero (Nat.le_zero.mp hb)
      subst hnil
      rw [sliceFrames]
      have hcond : ¬ (0 < k ∧ k ≤ ([] : List ℚ).length) := by
        simp only [List.length_nil]
        omega
      rw [dif_neg hcond]
      simp
    | succ n ih =>
      intro buf hb
      rw [sliceFrames]
      by_cases hcond : 0 < k ∧ k ≤ buf.length
      · rw [dif_pos hcond]
        have hdl : (buf.drop k).length = buf.length - k := by
          simp [List.length_drop]
        have hrec := ih (buf.drop k) (by omega)
        obtain ⟨r1, r2, r3⟩ := hrec
        refine ⟨?_, ?_, ?_⟩
        · simp only [List.length_cons, r1, hdl]
          rw [Nat.div_eq_sub_div hk hcond.2]
        · simp only [r2, hdl]
          exact (Nat.mod_eq_sub_mod hcond.2).symm
        · simp only [List.flatten_cons, List.append_assoc, r3]
          rw [List.take_append_drop]
      · rw [dif_neg hcond]
        have hlt : buf.length < k := by omega
        simp [Nat.div_eq_of_lt hlt, Nat.mod_eq_of_lt hlt]
  exact main buf.length buf le_rfl

/-- Fold invariant for a sequence of worklet callbacks: starting from frames
`fr` and a buffer shorter than one frame, the final frame count, remainder
length, and preserved sample stream are determined by the total resampled
sample count. -/
theorem processBlocks_invariant (s t k : ℕ) (hk : 0 < k) :
    ∀ (blocks : List (List ℚ)) (fr : List (List ℚ)) (buf : List ℚ),
      buf.length < k →
      ((blocks.foldl (onAudioBlock s t k) (fr, buf)).1.length
          = fr.length + (buf.length + resampledTotal s t blocks) / k)
      ∧ ((blocks.foldl (onAudioBlock s t k) (fr, buf)).2.length
          = (buf.length + resampledTotal s t blocks) % k)
      ∧ ((blocks.foldl (onAudioBlock s t k) (fr, buf)).1.flatten
            ++ (blocks.foldl (onAudioBlock s t k) (fr, buf)).2
          = fr.flatten ++ buf ++ (blocks.map (fun bl => resampleFloat32 bl s t)).flatten) := by
  intro blocks
  induction blocks with
  | nil =>
    intro fr buf hbuf
    refine ⟨?_, ?_, by simp⟩
    · simp [resampledTotal, Nat.div_eq_of_lt hbuf]
    · simp [resampledTotal, Nat.mod_eq_of_lt hbuf]
  | cons bl bs ih =>
    intro fr buf hbuf
    have hstep : onAudioBlock s t k (fr, buf) bl
        = (fr ++ (sliceFrames k (buf ++ resampleFloat32 bl s t)).1,
           (sliceFrames k (buf ++ resampleFloat32 bl s t)).2) := rfl
    set rb := resampleFloat32 bl s t with hrb
    set m := buf.length + rb.length with hm
    obtain ⟨s1, s2, s3⟩ := sliceFrames_spec k hk (buf ++ rb)
    have hmerged : (buf ++ rb).length = m := by simp [hm]
    have hrem : (sliceFrames k (buf ++ rb)).2.length = m % k := by
      rw [s2, hmerged]
    have hremlt : (sliceFrames k (buf ++ rb)).2.length < k := by
      rw [hrem]; exact Nat.mod_lt _ hk
    have hrec := ih (fr ++ (sliceFrames k (buf ++ rb)).1)
      (sliceFrames k (buf ++ rb)).2 hremlt
    obtain ⟨r1, r2, r3⟩ := hrec
    have htot : resampledTotal s t (bl :: bs) = rb.length + resampledTotal s t bs := by
      simp [resampledTotal, hrb]
    have hdiv : m / k + (m % k + resampledTotal s t bs) / k
        = (m + resampledTotal s t bs) / k := by
      conv_rhs => rw [← Nat.div_add_mod m k]
      rw [show k * (m / k) + m % k + resampledTotal s t bs
            = m % k + resampledTotal s t bs + k * (m / k) by ring]
      rw [Nat.add_mul_div_left _ _ hk]
      omega
    have hmod : (m % k + resampledTotal s t bs) % k
        = (m + resampledTotal s t bs) % k := by
      conv_rhs => rw [← Nat.div_add_mod m k]
      rw [show k * (m / k) + m % k + resampledTotal s t bs
            = m % k + resampledTotal s t bs + k * (m / k) by ring]
      rw [Nat.add_mul_mod_self_left]
    have hsum : buf.length + (rb.length + resampledTotal s t bs)
        = m + resampledTotal s t bs := by omega
    refine ⟨?_, ?_, ?_⟩
    · rw [List.foldl_cons, hstep, r1, List.length_append, s1, hmerged, htot, hrem,
        hsum, ← hdiv]
      ring
    · rw [List.foldl_cons, hstep, r2, hrem, hmod, htot]
      congr 1
      omega
    · rw [List.foldl_cons, hstep, r3]
      simp only [List.flatten_append, List.append_assoc, List.map_cons, List.flatten_cons]
      congr 1
      rw [← List.append_assoc, s3, List.append_assoc]

/-- Claim C4: over any sequence of audio blocks, with `total` the resampled
sample count, exactly `total / frameSamples` whole frames are emitted and
exactly `total % frameSamples` samples stay buffered (so an exact multiple
leaves the accumulation buffer empty); no sample is lost or reordered: the
emitted frames joined with the remaining buffer reproduce the concatenation
of the resampled blocks (remainders are prepended before the next block is
sliced). -/
theorem frame_emission_exact (s t k : ℕ) (hk : 0 < k) (blocks : List (List ℚ)) :
    (processBlocks s t k blocks).1.length = resampledTotal s t blocks / k
    ∧ (processBlocks s t k blocks).2.length = resampledTotal s t blocks % k
    ∧ ((processBlocks s t k blocks).1.flatten ++ (processBlocks s t k blocks).2
        = (blocks.map (fun bl => resampleFloat32 bl s t)).flatten)
    ∧ (resampledTotal s t blocks % k = 0 → (processBlocks s t k blocks).2 = []) := by
  obtain ⟨r1, r2, r3⟩ := processBlocks_invariant s t k hk blocks [] [] hk
  refine ⟨by simpa using r1, by simpa using r2, by simpa using r3, fun hz => ?_⟩
  have : (processBlocks s t k blocks).2.length = 0 := by
    have := r2
    simp only [List.length_nil, Nat.zero_add] at this
    rw [show processBlocks s t k blocks = blocks.foldl (onAudioBlock s t k) ([], []) from rfl]
    rw [this]
    exact hz
  exact List.eq_nil_of_length_eq_zero this

/-- Witness for C4: six resampled samples in two blocks, frame size `2`:
three frames out, empty buffer. -/
theorem frame_emission_exact_witness :
    (processBlocks 16000 16000 2 [[1, 2, 3], [4, 5, 6]]).1.length
      = resampledTotal 16000 16000 [[1, 2, 3], [4, 5, 6]] / 2
    ∧ (processBlocks 16000 16000 2 [[1, 2, 3], [4, 5, 6]]).2.length
      = resampledTotal 16000 16000 [[1, 2, 3], [4, 5, 6]] % 2 :=
  ⟨(frame_emission_exact 16000 16000 2 (by decide) [[1, 2, 3], [4, 5, 6]]).1,
   (frame_emission_exact 16000 16000 2 (by decide) [[1, 2, 3], [4, 5, 6]]).2.1⟩

/-! ### Claim C5 -/

/-- Claim C5: a track whose label yields a token (`inspectTrackLabel`) that
is a key of the participant registry is mapped directly to that participant
and the mapping event is emitted, with no timer scheduled and no reference
to the timing window: the result does not depend on the track timestamp
`ts` at all. -/
theorem label_direct_match_bypasses_timing (st : DetectorState)
    (trackId label : String) (ts : ℤ) (pid : String)
    (h1 : inspectTrackLabel label = some pid)
    (h2 : containsKey st.participants pid = true) :
    handleTrackAdded st trackId label ts =
      (⟨st.participants, setA st.trackToParticipant trackId pid, st.pendingTracks⟩,
       [⟨trackId, pid, false⟩], []) := by
  rw [handleTrackAdded, h1]
  simp [h2]

/-- Witness for C5: label `"participant-42"`, registry key `"42"`, and a
track timestamp a full `10000` ms away from the participant's join
timestamp `0` (far outside the 3000 ms window). -/
theorem label_direct_match_bypasses_timing_witness :
    (trackAssignmentWindowMs : ℤ) < |(10000 : ℤ) - 0|
    ∧ handleTrackAdded ⟨[("42", ⟨"42", "Alice", 0, false⟩)], [], []⟩
        "T1" "participant-42" 10000 =
      (⟨[("42", ⟨"42", "Alice", 0, false⟩)], setA [] "T1" "42", []⟩,
       [⟨"T1", "42", false⟩], []) :=
  ⟨by decide,
   label_direct_match_bypasses_timing ⟨[("42", ⟨"42", "Alice", 0, false⟩)], [], []⟩
     "T1" "participant-42" 10000 "42" (by decide) (by decide)⟩

/-! ### Claim C6 -/

/-- Direct-match result of the label inspection against the registry (the
guard of the first branch of the `WEBRTC_TRACK_ADDED` handler). -/
def directMatchId (parts : List (String × Participant)) (label : String) :
    Option String :=
  match inspectTrackLabel label with
  | some possibleId => if containsKey parts possibleId then some possibleId else none
  | none => none

/-- Claim C6: a track-added event with no direct label match and no
participant within the 3000 ms window emits nothing, records the track as
pending with the deterministic fallback id `participant-<trackId[0..8]>`
(a pure function of the track identifier), and schedules exactly one timer
with delay `TRACK_ASSIGNMENT_WINDOW_MS = 3000`; and whenever that timer
fires on a state where the track is still pending, the track is mapped to
the fallback id, the pending entry is removed, the registry gains the
fallback participant, and a single mapping event tagged `isFallback = true`
is emitted. -/
theorem deferred_fallback_mapping (st : DetectorState) (trackId label : String)
    (ts now : ℤ)
    (h1 : directMatchId st.participants label = none)
    (h2 : ∀ pr ∈ st.participants, ¬ (|ts - pr.2.timestamp| < (trackAssignmentWindowMs : ℤ))) :
    handleTrackAdded st trackId label ts =
      (⟨st.participants, st.trackToParticipant,
        setA st.pendingTracks trackId ⟨ts, fallbackIdOf trackId⟩⟩,
       [], [⟨trackAssignmentWindowMs, trackId, fallbackIdOf trackId⟩])
    ∧ ∀ st2 : DetectorState, (lookupA st2.pendingTracks trackId).isSome →
        (fireFallbackTimeout st2 trackId (fallbackIdOf trackId) now).2
            = [⟨trackId, fallbackIdOf trackId, true⟩]
        ∧ lookupA (fireFallbackTimeout st2 trackId (fallbackIdOf trackId) now).1.trackToParticipant
            trackId = some (fallbackIdOf trackId)
        ∧ lookupA (fireFallbackTimeout st2 trackId (fallbackIdOf trackId) now).1.pendingTracks
            trackId = none
        ∧ containsKey (fireFallbackTimeout st2 trackId (fallbackIdOf trackId) now).1.participants
            (fallbackIdOf trackId) = true := by
  have hfind : st.participants.find?
      (fun pr => decide (|ts - pr.2.timestamp| < (trackAssignmentWindowMs : ℤ))) = none := by
    rw [List.find?_eq_none]
    intro pr hpr
    simpa using h2 pr hpr
  have hadd : handleTrackAdded st trackId label ts =
      (⟨st.participants, st.trackToParticipant,
        setA st.pendingTracks trackId ⟨ts, fallbackIdOf trackId⟩⟩,
       [], [⟨trackAssignmentWindowMs, trackId, fallbackIdOf trackId⟩]) := by
    have hct : correlateByTiming st trackId ts =
        (⟨st.participants, st.trackToParticipant,
          setA st.pendingTracks trackId ⟨ts, fallbackIdOf trackId⟩⟩,
         [], [⟨trackAssignmentWindowMs, trackId, fallbackIdOf trackId⟩]) := by
      rw [correlateByTiming, hfind]
    rw [handleTrackAdded]
    cases hins : inspectTrackLabel label with
    | none => exact hct
    | some possibleId =>
      simp only [directMatchId, hins] at h1
      have hnk : containsKey st.participants possibleId = false := by
        by_cases hck : containsKey st.participants possibleId
        · simp [hck] at h1
        · simpa using hck
      simp only [hnk, Bool.false_eq_true, ↓reduceIte]
      exact hct
  refine ⟨hadd, fun st2 hpend => ?_⟩
  rw [fireFallbackTimeout, if_pos hpend]
  refine ⟨rfl, lookupA_setA_self _ _ _, lookupA_eraseA_self _ _, ?_⟩
  by_cases hck : containsKey st2.participants (fallbackIdOf trackId)
  · simp [hck]
  · have hnone : lookupA st2.participants (fallbackIdOf trackId) = none := by
      rw [containsKey] at hck
      exact Option.not_isSome_iff_eq_none.mp hck
    simp only [hck, Bool.false_eq_true, ↓reduceIte]
    exact containsKey_append_self _ _ _

/-- Witness for C6: an unmatchable label `"x"`, a participant that joined
10000 ms before the track, and a timer fire on the resulting pending
state. -/
theorem deferred_fallback_mapping_witness :
    handleTrackAdded ⟨[("alice", ⟨"alice", "Alice", 0, false⟩)], [], []⟩
        "TRACK123456" "x" 10000 =
      (⟨[("alice", ⟨"alice", "Alice", 0, false⟩)], [],
        setA [] "TRACK123456" ⟨10000, fallbackIdOf "TRACK123456"⟩⟩,
       [], [⟨trackAssignmentWindowMs, "TRACK123456", fallbackIdOf "TRACK123456"⟩])
    ∧ ((fireFallbackTimeout
          ⟨[("alice", ⟨"alice", "Alice", 0, false⟩)], [],
           [("TRACK123456", ⟨10000, fallbackIdOf "TRACK123456"⟩)]⟩
          "TRACK123456" (fallbackIdOf "TRACK123456") 20000).2
        = [⟨"TRACK123456", fallbackIdOf "TRACK123456", true⟩]
      ∧ lookupA (fireFallbackTimeout
          ⟨[("alice", ⟨"alice", "Alice", 0, false⟩)], [],
           [("TRACK123456", ⟨10000, fallbackIdOf "TRACK123456"⟩)]⟩
          "TRACK123456" (fallbackIdOf "TRACK123456") 20000).1.trackToParticipant
          "TRACK123456" = some (fallbackIdOf "TRACK123456")
      ∧ lookupA (fireFallbackTimeout
          ⟨[("alice", ⟨"alice", "Alice", 0, false⟩)], [],
           [("TRACK123456", ⟨10000, fallbackIdOf "TRACK123456"⟩)]⟩
          "TRACK123456" (fallbackIdOf "TRACK123456") 20000).1.pendingTracks
          "TRACK123456" = none
      ∧ containsKey (fireFallbackTimeout
          ⟨[("alice", ⟨"alice", "Alice", 0, false⟩)], [],
           [("TRACK123456", ⟨10000, fallbackIdOf "TRACK123456"⟩)]⟩
          "TRACK123456" (fallbackIdOf "TRACK123456") 20000).1.participants
          (fallbackIdOf "TRACK123456") = true)
    ∧ fallbackIdOf "TRACK123456" = "participant-TRACK123" :=
  ⟨(deferred_fallback_mapping ⟨[("alice", ⟨"alice", "Alice", 0, false⟩)], [], []⟩
      "TRACK123456" "x" 10000 20000 (by decide) (by decide)).1,
   (deferred_fallback_mapping ⟨[("alice", ⟨"alice", "Alice", 0, false⟩)], [], []⟩
      "TRACK123456" "x" 10000 20000 (by decide) (by decide)).2
     ⟨[("alice", ⟨"alice", "Alice", 0, false⟩)], [],
      [("TRACK123456", ⟨10000, fallbackIdOf "TRACK123456"⟩)]⟩ (by decide),
   by decide⟩

/-! ### Claim C7 -/

/-- Claim C7: at most one audio processor per participant.  A second
correlation event for a participant that already has a processor is a
no-op (the registry is returned unchanged), and when the participant was
fresh, the registry afterwards holds exactly one processor for that id,
bound to the *first* track. -/
theorem one_processor_per_participant (procs : List (String × ProcessorRec))
    (pid pname1 tid1 pname2 tid2 : String) :
    handleRemoteTrack (handleRemoteTrack procs pid pname1 tid1) pid pname2 tid2
      = handleRemoteTrack procs pid pname1 tid1
    ∧ (containsKey procs pid = false →
        lookupA (handleRemoteTrack procs pid pname1 tid1) pid = some ⟨pid, pname1, tid1⟩
        ∧ ((handleRemoteTrack procs pid pname1 tid1).filter
            (fun pr => pr.1 == pid)).length = 1) := by
  constructor
  · by_cases hck : containsKey procs pid
    · have h1 : handleRemoteTrack procs pid pname1 tid1 = procs := by
        rw [handleRemoteTrack, if_pos hck]
      rw [h1, handleRemoteTrack, if_pos hck]
    · have h1 : handleRemoteTrack procs pid pname1 tid1 = setA procs pid ⟨pid, pname1, tid1⟩ := by
        rw [handleRemoteTrack, if_neg hck]
      have h2 : containsKey (setA procs pid ⟨pid, pname1, tid1⟩) pid = true := by
        rw [containsKey, lookupA_setA_self]
        rfl
      rw [h1, handleRemoteTrack, if_pos h2]
  · intro hck
    have hnone : lookupA procs pid = none := by
      rw [containsKey] at hck
      exact Option.not_isSome_iff_eq_none.mp (by simp [hck])
    have h1 : handleRemoteTrack procs pid pname1 tid1 = procs ++ [(pid, ⟨pid, pname1, tid1⟩)] := by
      rw [handleRemoteTrack, if_neg (by simp [hck]), setA_of_absent _ _ _ hnone]
    constructor
    · rw [h1]
      exact lookupA_append_absent _ _ _ hnone
    · rw [h1, List.filter_append, filter_key_eq_nil_of_absent _ _ hnone]
      simp

/-- Witness for C7: two tracks `"T1"`, `"T2"` correlated to the fresh
participant `"42"` leave exactly one processor, bound to `"T1"`. -/
theorem one_processor_per_participant_witness :
    handleRemoteTrack (handleRemoteTrack [] "42" "Alice" "T1") "42" "Bob" "T2"
      = handleRemoteTrack [] "42" "Alice" "T1"
    ∧ lookupA (handleRemoteTrack [] "42" "Alice" "T1") "42" = some ⟨"42", "Alice", "T1"⟩
    ∧ ((handleRemoteTrack [] "42" "Alice" "T1").filter
        (fun pr => pr.1 == "42")).length = 1 :=
  ⟨(one_processor_per_participant [] "42" "Alice" "T1" "Bob" "T2").1,
   ((one_processor_per_participant [] "42" "Alice" "T1" "Bob" "T2").2 (by decide)).1,
   ((one_processor_per_participant [] "42" "Alice" "T1" "Bob" "T2").2 (by decide)).2⟩

/-! ### Claim C8 -/

/-- Counterexample to C8 as stated: the `WEBRTC_TRACK_ADDED` handler never
consults `trackToParticipant`, so replaying a track-added event for the
already-mapped track `"T1"` (exactly what the retroactive reconciliation at
multi-track startup does) emits a second `TRACK_PARTICIPANT_MAPPED` event
for `"T1"` instead of none. -/
theorem remap_event_on_replay_cex :
    lookupA replayState.trackToParticipant "T1" = some "42"
    ∧ (handleTrackAdded replayState "T1" "participant-42" 99999).2.1
        = [⟨"T1", "42", false⟩]
    ∧ (handleTrackAdded replayState "T1" "participant-42" 99999).2.1 ≠ [] := by
  refine ⟨by decide, ?_, ?_⟩ <;> decide

/-- Claim C8 (amended): each single track-added event produces at most one
mapping event, and any event produced carries that event's track id; but
the engine does not deduplicate across events — a replayed track-added for
an already-mapped track re-runs the correlation policy and can emit a
second mapping event for the same track (see the counterexample). -/
theorem mapped_events_per_event (st : DetectorState) (trackId label : String)
    (ts : ℤ) :
    (handleTrackAdded st trackId label ts).2.1.length ≤ 1
    ∧ ∀ e ∈ (handleTrackAdded st trackId label ts).2.1, e.trackId = trackId := by
  rw [handleTrackAdded]
  cases inspectTrackLabel label with
  | some possibleId =>
    by_cases hck : containsKey st.participants possibleId
    · simp [hck]
    · simp only [hck, Bool.false_eq_true, ↓reduceIte]
      rw [correlateByTiming]
      cases st.participants.find?
          (fun pr => decide (|ts - pr.2.timestamp| < (trackAssignmentWindowMs : ℤ))) with
      | some pr => simp
      | none => simp
  | none =>
    rw [correlateByTiming]
    cases st.participants.find?
        (fun pr => decide (|ts - pr.2.timestamp| < (trackAssignmentWindowMs : ℤ))) with
    | some pr => simp
    | none => simp

/-- Witness for the amended C8: a timing-matched event emits exactly one
mapping event, and it names the event's track. -/
theorem mapped_events_per_event_witness :
    (handleTrackAdded ⟨[("alice", ⟨"alice", "Alice", 0, false⟩)], [], []⟩
        "T9" "" 100).2.1.length ≤ 1
    ∧ (⟨"T9", "alice", false⟩ : MappedEvent).trackId = "T9" :=
  ⟨(mapped_events_per_event ⟨[("alice", ⟨"alice", "Alice", 0, false⟩)], [], []⟩
      "T9" "" 100).1,
   (mapped_events_per_event ⟨[("alice", ⟨"alice", "Alice", 0, false⟩)], [], []⟩
      "T9" "" 100).2 ⟨"T9", "alice", false⟩ (by decide)⟩

/-! ### Claim C1 -/

/-- Sends while the transport is not yet ready only append to the queue, in
order, and transmit nothing. -/
theorem wsSend_foldl_not_ready (bs : List PCMBuf) :
    ∀ st : WsState, st.ready = false →
      ((bs.foldl wsSend st).ready = false
      ∧ (bs.foldl wsSend st).queue = st.queue ++ bs
      ∧ (bs.foldl wsSend st).sent = st.sent) := by
  induction bs with
  | nil => intro st h; simpa using h
  | cons b rest ih =>
    intro st h
    have hstep : wsSend st b = ⟨st.ready, st.queue ++ [b], st.sent⟩ := by
      rw [wsSend, if_neg (by simp [h])]
    rw [List.foldl_cons, hstep]
    obtain ⟨i1, i2, i3⟩ := ih ⟨st.ready, st.queue ++ [b], st.sent⟩ h
    exact ⟨i1, by simpa [List.append_assoc] using i2, i3⟩

/-- Claim C1: every frame handed to `send` while `ready` is false is
appended to the outbound queue in FIFO order and none is transmitted yet;
when the transport's `open` event fires, exactly the queued buffers are
handed to the transport, once each, appended to the send log in the same
FIFO order, the queue is left empty, and the connection is ready.  No
enqueued frame is dropped. -/
theorem relay_queue_fifo_flush (st : WsState) (bs : List PCMBuf)
    (h : st.ready = false) :
    (bs.foldl wsSend st).queue = st.queue ++ bs
    ∧ (bs.foldl wsSend st).sent = st.sent
    ∧ (wsOpen (bs.foldl wsSend st)).sent = st.sent ++ (st.queue ++ bs)
    ∧ (wsOpen (bs.foldl wsSend st)).queue = []
    ∧ (wsOpen (bs.foldl wsSend st)).ready = true := by
  obtain ⟨h1, h2, h3⟩ := wsSend_foldl_not_ready bs st h
  refine ⟨h2, h3, ?_, rfl, rfl⟩
  rw [wsOpen]
  rw [h2, h3]

/-- Witness for C1: three frames enqueued before readiness are flushed as
`F1, F2, F3` and the queue is cleared. -/
theorem relay_queue_fifo_flush_witness :
    (([[1], [2], [3]] : List PCMBuf).foldl wsSend ⟨false, [], []⟩).queue
        = ([] : List PCMBuf) ++ [[1], [2], [3]]
    ∧ (([[1], [2], [3]] : List PCMBuf).foldl wsSend ⟨false, [], []⟩).sent = []
    ∧ (wsOpen (([[1], [2], [3]] : List PCMBuf).foldl wsSend ⟨false, [], []⟩)).sent
        = ([] : List PCMBuf) ++ (([] : List PCMBuf) ++ [[1], [2], [3]])
    ∧ (wsOpen (([[1], [2], [3]] : List PCMBuf).foldl wsSend ⟨false, [], []⟩)).queue = []
    ∧ (wsOpen (([[1], [2], [3]] : List PCMBuf).foldl wsSend ⟨false, [], []⟩)).ready = true :=
  relay_queue_fifo_flush ⟨false, [], []⟩ [[1], [2], [3]] rfl

/-! ### Claim C10 -/

/-- Claim C10: an `AUDIO_WS_SEND` for a `(tabId, participantId)` pair with
no relay connection state leaves the whole relay table unchanged — the
frame is neither transmitted nor queued anywhere, and no connection is
created as a side effect. -/
theorem send_without_connection_discards (tbl : RelayTable) (tab : ℕ)
    (pid : String) (buf : PCMBuf) (h : getConn tbl tab pid = none) :
    handleWsSend tbl tab pid buf = tbl := by
  rw [getConn] at h
  cases htab : lookupA tbl tab with
  | none => simp only [handleWsSend, htab]
  | some pm =>
    rw [htab] at h
    have hpid : lookupA pm pid = none := h
    simp only [handleWsSend, htab, hpid]

/-- Witness for C10: a send for tab `1`, participant `"42"` on an empty
relay table is a no-op. -/
theorem send_without_connection_discards_witness :
    getConn [] 1 "42" = none ∧ handleWsSend [] 1 "42" [0] = [] :=
  ⟨rfl, send_without_connection_discards [] 1 "42" [0] rfl⟩

end MeetCapture
